import Mathlib

/-!
Shallow embedding of the reading-list-processor core
(`app/safari_reader.py`, `app/summarizer.py`, `app/main.py`, `app/models.py`)
and proofs of the specified properties.

Conventions:
- Python `Optional[str]` becomes `Option String`; Python truthiness of such a
  value (`if not x`) is `pyTruthyStr` (empty string is falsy).
- Character-level string operations (slicing, `strip`, `split`, `splitlines`)
  are modelled on `List Char`, matching Python's code-point sequences.
- Exceptions become `Except`; external effects (the HTTP GET, the LLM call,
  the database session) become explicit inputs/outputs: the fetcher and the
  summarizer enter the orchestrator as oracles, and `summarize_with_llm`
  returns the provider call it would issue instead of performing it.
-/

namespace ReadingListProcessor

deriving instance DecidableEq for Except

/-! ### Python truthiness helpers -/

/-- Truthiness of a Python `Optional[str]`: `None` and `""` are falsy. -/
def pyTruthyStr : Option String → Bool
  | none => false
  | some s => !s.isEmpty

/-- Truthiness of a Python `Optional[int]`: `None` and `0` are falsy. -/
def pyTruthyNat : Option Nat → Bool
  | none => false
  | some n => n != 0

/-! ### Data model (`app/models.py`) -/

/-- Persisted row of `reading_list_items` (`models.ReadingListItem`).
Timestamps are abstracted to `Nat`. -/
structure ReadingListItem where
  id : Nat
  url : String
  title : Option String
  preview_text : Option String
  content : Option String
  summary : Option String
  processed : Bool
  added_date : Nat
  processed_date : Option Nat
deriving DecidableEq, Repr

/-- Transient extractor output: one element of the list returned by
`extract_reading_list` (a Python dict with keys
`url`, `title`, `preview_text`, `added_date`). -/
structure ReadingListEntry where
  url : String
  title : String
  preview_text : String
  added_date : Option Nat
deriving DecidableEq, Repr

/-! ### Bookmark extractor (`app/safari_reader.py`) -/

/-- The fields of one plist bookmark node that `traverse_bookmarks` reads:
`Title`, `URLString`, `URIDictionary.title`, `ReadingList.PreviewText`,
`ReadingList.DateAdded`; each may be absent. -/
structure NodeData where
  title : Option String
  urlString : Option String
  uriTitle : Option String
  previewText : Option String
  dateAdded : Option Nat
deriving DecidableEq, Repr

mutual
/-- A bookmark plist node: `leaf` has no `Children` key, `folder` has one
(possibly with an empty child list). -/
inductive BNode where
  | leaf (d : NodeData)
  | folder (d : NodeData) (children : BForest)
/-- A list of bookmark nodes (the value of a `Children` key). -/
inductive BForest where
  | nil
  | cons (n : BNode) (ns : BForest)
end

/-- The sentinel folder title identifying the reading list. -/
def sentinelTitle : String := "com.apple.ReadingList"

/-- The entry built for one child of the matched reading-list folder
(`safari_reader.py` lines 32-40): absent fields default to `''`
(`DateAdded` defaults to `None`). -/
def entryOf (d : NodeData) : ReadingListEntry :=
  { url := d.urlString.getD ""
    title := d.uriTitle.getD ""
    preview_text := d.previewText.getD ""
    added_date := d.dateAdded }

/-- The node data of a bookmark node. -/
def dataOf : BNode → NodeData
  | .leaf d => d
  | .folder d _ => d

/-- Entries for the direct children of a matched folder, in source order. -/
def entriesOfForest : BForest → List ReadingListEntry
  | .nil => []
  | .cons n ns => entryOf (dataOf n) :: entriesOfForest ns

/-- Number of nodes in a forest. -/
def forestLength : BForest → Nat
  | .nil => 0
  | .cons _ ns => 1 + forestLength ns

mutual
/-- Entries collected by `traverse_bookmarks` from one node: a node titled
`com.apple.ReadingList` contributes its direct children as entries (nothing
if it has no `Children` key) and is not descended into; any other node with
a `Children` key is descended into. -/
def traverseNode : BNode → List ReadingListEntry
  | .leaf _ => []
  | .folder d cs =>
    if d.title = some sentinelTitle then entriesOfForest cs else traverse_bookmarks cs
/-- `traverse_bookmarks(children)` from `safari_reader.py`, as a pure function
of the child list (the Python version appends to an outer accumulator). -/
def traverse_bookmarks : BForest → List ReadingListEntry
  | .nil => []
  | .cons n ns => traverseNode n ++ traverse_bookmarks ns
end

/-- Error raised by the extractor: the spec's `NotFoundError`
(Python `FileNotFoundError`). -/
inductive ExtractError where
  | notFound
deriving DecidableEq, Repr

/-- `extract_reading_list(bookmarks_path)`: the file system is abstracted to
an `Option BNode` (`none` means no file exists at the path, `some root` is
the parsed plist root dict). Traversal starts at the root's `Children`
(nothing is collected if the root has no `Children` key). -/
def extract_reading_list : Option BNode → Except ExtractError (List ReadingListEntry)
  | none => .error .notFound
  | some (.leaf _) => .ok []
  | some (.folder _ cs) => .ok (traverse_bookmarks cs)

mutual
/-- Count of sentinel-titled nodes that have a `Children` key, in one node's
subtree. -/
def sentinelFolderCountN : BNode → Nat
  | .leaf _ => 0
  | .folder d cs =>
    (if d.title = some sentinelTitle then 1 else 0) + sentinelFolderCountF cs
/-- Count of sentinel-titled folder nodes in a forest. -/
def sentinelFolderCountF : BForest → Nat
  | .nil => 0
  | .cons n ns => sentinelFolderCountN n + sentinelFolderCountF ns
end

mutual
/-- The child forest of the first sentinel-titled folder in a node's subtree,
in traversal order. -/
def firstSentinelChildrenN : BNode → Option BForest
  | .leaf _ => none
  | .folder d cs =>
    if d.title = some sentinelTitle then some cs
    else firstSentinelChildrenF cs
/-- The child forest of the first sentinel-titled folder in a forest. -/
def firstSentinelChildrenF : BForest → Option BForest
  | .nil => none
  | .cons n ns =>
    match firstSentinelChildrenN n with
    | some cs => some cs
    | none => firstSentinelChildrenF ns
end

/-! ### Content fetcher (`app/summarizer.py`, `fetch_webpage_content`) -/

/-- Python `str.strip()` (whitespace restricted to ASCII whitespace). -/
def pstrip (s : List Char) : List Char :=
  (((s.dropWhile Char.isWhitespace).reverse.dropWhile Char.isWhitespace)).reverse

/-- Python `str.splitlines()` restricted to `'\n'` separators, before the
trailing-piece correction: splitting a char list at each newline. -/
def splitNl : List Char → List (List Char)
  | [] => [[]]
  | '\n' :: rest => [] :: splitNl rest
  | c :: rest =>
    match splitNl rest with
    | [] => [[c]]
    | l :: ls => (c :: l) :: ls

/-- Python `str.splitlines()` (for `'\n'`-separated text): like `splitNl`
but without a final empty piece, so `"".splitlines() = []` and a trailing
newline yields no extra line. -/
def pySplitlines (s : List Char) : List (List Char) :=
  let ps := splitNl s
  if ps.getLast? = some [] then ps.dropLast else ps

/-- Python `str.split("  ")`: split at each non-overlapping occurrence of two
consecutive spaces, scanning left to right. -/
def splitDouble : List Char → List (List Char)
  | [] => [[]]
  | ' ' :: ' ' :: rest => [] :: splitDouble rest
  | c :: rest =>
    match splitDouble rest with
    | [] => [[c]]
    | l :: ls => (c :: l) :: ls

mutual
/-- An HTML node as seen by BeautifulSoup: a text string or an element with a
tag name and children. -/
inductive HNode where
  | htext (s : List Char)
  | helem (tag : String) (children : HForest)
/-- A list of sibling HTML nodes. -/
inductive HForest where
  | hnil
  | hcons (n : HNode) (ns : HForest)
end

/-- Concatenation of sibling lists. -/
def happend : HForest → HForest → HForest
  | .hnil, g => g
  | .hcons n ns, g => .hcons n (happend ns g)

/-- The element names removed before text extraction
(`soup(['script', 'style', 'nav', 'header', 'footer'])` + `decompose()`). -/
def excludedTags : List String := ["script", "style", "nav", "header", "footer"]

mutual
/-- `decompose()` of every excluded element below one node: the node itself
vanishes if its tag is excluded, otherwise its children are filtered. -/
def decomposeNode : HNode → HForest
  | .htext s => .hcons (.htext s) .hnil
  | .helem t cs =>
    if t ∈ excludedTags then .hnil else .hcons (.helem t (decomposeForest cs)) .hnil
/-- `decompose()` of every excluded element in a forest. -/
def decomposeForest : HForest → HForest
  | .hnil => .hnil
  | .hcons n ns => happend (decomposeNode n) (decomposeForest ns)
end

mutual
/-- The text strings below one node, in document order. -/
def stringsNode : HNode → List (List Char)
  | .htext s => [s]
  | .helem _ cs => stringsForest cs
/-- The text strings of a forest, in document order. -/
def stringsForest : HForest → List (List Char)
  | .hnil => []
  | .hcons n ns => stringsNode n ++ stringsForest ns
end

mutual
/-- The text strings below one node, skipping excluded subtrees entirely:
an independent reading of "text outside script/style/nav/header/footer". -/
def keptStringsNode : HNode → List (List Char)
  | .htext s => [s]
  | .helem t cs => if t ∈ excludedTags then [] else keptStringsForest cs
/-- The text strings of a forest outside excluded subtrees. -/
def keptStringsForest : HForest → List (List Char)
  | .hnil => []
  | .hcons n ns => keptStringsNode n ++ keptStringsForest ns
end

/-- `soup.get_text(separator='\n', strip=True)`: each string stripped,
whitespace-only strings dropped, remainder joined with the separator. -/
def get_text (f : HForest) : List Char :=
  List.intercalate ['\n'] (((stringsForest f).map pstrip).filter fun s => !s.isEmpty)

/-- The whitespace normalization of `fetch_webpage_content`
(`summarizer.py` lines 37-39): strip each line, split lines on double
spaces, strip the phrases, drop empty chunks, rejoin with newlines. -/
def clean_whitespace (text : List Char) : List Char :=
  let lines := (pySplitlines text).map pstrip
  let chunks := lines.flatMap fun line => (splitDouble line).map pstrip
  List.intercalate ['\n'] (chunks.filter fun c => !c.isEmpty)

/-- The chunk list whose newline-join is the output of
`fetch_webpage_content` on a successfully fetched document. -/
def fetchChunks (doc : HForest) : List (List Char) :=
  (((pySplitlines (get_text (decomposeForest doc))).map pstrip).flatMap
      fun line => (splitDouble line).map pstrip).filter fun c => !c.isEmpty

/-- `fetch_webpage_content(url)` on the success path, as a function of the
parsed response document: the HTTP GET, status check and lxml parse are
abstracted away (a failed fetch returns `None` in Python and is modelled in
the orchestrator by its fetch oracle returning `none`). -/
def fetch_webpage_content (doc : HForest) : List Char :=
  clean_whitespace (get_text (decomposeForest doc))

mutual
/-- No element below the node carries an excluded tag. -/
def noExcludedNode : HNode → Bool
  | .htext _ => true
  | .helem t cs => !(t ∈ excludedTags : Bool) && noExcludedForest cs
/-- No element in the forest carries an excluded tag. -/
def noExcludedForest : HForest → Bool
  | .hnil => true
  | .hcons n ns => noExcludedNode n && noExcludedForest ns
end

/-! ### Summarization dispatcher (`app/summarizer.py`, `summarize_with_llm`) -/

/-- The environment variables `summarize_with_llm` reads (`none` = unset). -/
structure LLMEnv where
  llm_provider : Option String
  llm_model : Option String
  github_token : Option String
  anthropic_api_key : Option String
  openai_api_key : Option String
deriving DecidableEq, Repr

/-- Python `ValueError` raised by the dispatcher: the spec's
`ConfigurationError`. -/
inductive LLMError where
  | valueError (msg : String)
deriving DecidableEq, Repr

/-- The provider invocation `summarize_with_llm` would perform; returning it
instead of executing it makes "no provider call is attempted" visible: an
`Except.error` result constructs no call. `has_temperature` records whether
the call passes the fixed sampling temperature 0.7 (the Anthropic branch
passes none). -/
structure ProviderCall where
  provider : String
  base_url : Option String
  model : String
  api_key : String
  system_message : Option String
  prompt : List Char
  max_tokens : Nat
  has_temperature : Bool
deriving DecidableEq, Repr

/-- Provider resolution: explicit argument if truthy, else
`os.getenv('LLM_PROVIDER', 'github')`. -/
def resolveProvider (provider : Option String) (env : LLMEnv) : String :=
  match provider with
  | some s => if s.isEmpty then env.llm_provider.getD "github" else s
  | none => env.llm_provider.getD "github"

/-- Credential resolution: explicit argument if truthy, else the provider's
environment variable. -/
def resolveKey (api_key envVar : Option String) : Option String :=
  if pyTruthyStr api_key then api_key else envVar

/-- Per-branch model default: the branch-local `if not model: model = dflt`. -/
def finalModel (m : Option String) (dflt : String) : String :=
  match m with
  | some s => if s.isEmpty then dflt else s
  | none => dflt

/-- The fixed default summarization instructions. -/
def default_instructions : List Char :=
  ("Please provide a concise summary of the following content. " ++
   "Focus on the main points, key takeaways, and any important insights.").toList

/-- Instruction resolution: custom instructions if truthy, else the default. -/
def resolveInstructions (ci : Option (List Char)) : List Char :=
  match ci with
  | some s => if s.isEmpty then default_instructions else s
  | none => default_instructions

/-- The content budget in characters. -/
def max_chars : Nat := 400000

/-- The marker appended when content is truncated. -/
def truncation_marker : List Char :=
  "\n\n[Content truncated due to length...]".toList

/-- Content truncation (`summarizer.py` lines 83-85). -/
def truncateContent (content : List Char) : List Char :=
  if content.length > max_chars then content.take max_chars ++ truncation_marker
  else content

/-- The prompt `f"{instructions}\n\nContent:\n\n{content}"`. -/
def buildPrompt (instructions content : List Char) : List Char :=
  instructions ++ "\n\nContent:\n\n".toList ++ content

/-- The system message of the OpenAI-compatible branches. -/
def assistant_system_message : String :=
  "You are a helpful assistant that summarizes articles."

/-- `summarize_with_llm(content, custom_instructions, api_key, provider,
model)`: resolves provider, model, credential and instructions, builds the
prompt, and either fails with a `ValueError` (unknown provider or missing
credential) or returns the provider call it would issue. -/
def summarize_with_llm (env : LLMEnv) (content : List Char)
    (custom_instructions : Option (List Char)) (api_key : Option String)
    (provider : Option String) (model : Option String) :
    Except LLMError ProviderCall :=
  let providerR := resolveProvider provider env
  let modelR := if pyTruthyStr model then model else env.llm_model
  let instructions := resolveInstructions custom_instructions
  let prompt := buildPrompt instructions (truncateContent content)
  if providerR = "github" then
    let key := resolveKey api_key env.github_token
    if pyTruthyStr key then
      .ok { provider := "github"
            base_url := some "https://models.github.ai/inference"
            model := finalModel modelR "gpt-4o"
            api_key := key.getD ""
            system_message := some assistant_system_message
            prompt := prompt
            max_tokens := 1024
            has_temperature := true }
    else .error (.valueError "GitHub token not provided")
  else if providerR = "anthropic" then
    let key := resolveKey api_key env.anthropic_api_key
    if pyTruthyStr key then
      .ok { provider := "anthropic"
            base_url := none
            model := finalModel modelR "claude-3-5-sonnet-20241022"
            api_key := key.getD ""
            system_message := none
            prompt := prompt
            max_tokens := 1024
            has_temperature := false }
    else .error (.valueError "Anthropic API key not provided")
  else if providerR = "openai" then
    let key := resolveKey api_key env.openai_api_key
    if pyTruthyStr key then
      .ok { provider := "openai"
            base_url := none
            model := finalModel modelR "gpt-4o"
            api_key := key.getD ""
            system_message := some assistant_system_message
            prompt := prompt
            max_tokens := 1024
            has_temperature := true }
    else .error (.valueError "OpenAI API key not provided")
  else .error (.valueError ("Unknown LLM provider: " ++ providerR))

/-! ### Sync and process orchestrator (`app/main.py`) -/

/-- The body of `POST /api/process` (`main.ProcessRequest`). -/
structure ProcessRequest where
  item_id : Option Nat
  reprocess : Bool
  custom_instructions : Option String
deriving DecidableEq, Repr

/-- A fatal error of an orchestrator endpoint (HTTP 404 "Item not found"). -/
inductive ApiError where
  | itemNotFound
deriving DecidableEq, Repr

/-- One new row built by `sync_reading_list` for an extracted entry: a blank
title falls back to the URL (`item['title'] or item['url']`), an absent
`added_date` falls back to the current time. -/
def newItemFromEntry (id now : Nat) (e : ReadingListEntry) : ReadingListItem :=
  { id := id
    url := e.url
    title := some (if e.title.isEmpty then e.url else e.title)
    preview_text := some e.preview_text
    content := none
    summary := none
    processed := false
    added_date := e.added_date.getD now
    processed_date := none }

/-- One iteration of the sync loop over `(store, new_count, next id)`:
insert the entry unless a persisted item already has its URL (the session
query sees rows added earlier in the same run, as SQLAlchemy autoflush
does). -/
def syncInsert (now : Nat) (acc : List ReadingListItem × Nat × Nat)
    (e : ReadingListEntry) : List ReadingListItem × Nat × Nat :=
  if acc.1.any (fun it => it.url == e.url) then acc
  else (acc.1 ++ [newItemFromEntry acc.2.2 now e], acc.2.1 + 1, acc.2.2 + 1)

/-- `POST /api/sync` (`main.sync_reading_list`), given the extracted entry
list: returns the new store and `new_items`, the count of inserted rows.
Fresh primary keys are drawn from `nextId` upward. -/
def sync_reading_list (entries : List ReadingListEntry) (now nextId : Nat)
    (store : List ReadingListItem) : List ReadingListItem × Nat :=
  let r := entries.foldl (syncInsert now) (store, 0, nextId)
  (r.1, r.2.1)

/-- Resolution of effective custom instructions in `process_items`: the
request value if truthy, else the persisted `custom_instructions` setting if
that row exists, else the request value as it was. -/
def resolveRequestInstructions (req_ci : Option String)
    (settings : Option String) : Option String :=
  if pyTruthyStr req_ci then req_ci
  else
    match settings with
    | some v => some v
    | none => req_ci

/-- The fetch condition of `process_items` line 128:
`not item.content or request.reprocess or request.item_id`. -/
def needsFetch (req : ProcessRequest) (item : ReadingListItem) : Bool :=
  !pyTruthyStr item.content || req.reprocess || pyTruthyNat req.item_id

/-- An external call made while processing one item. -/
inductive PEvent where
  | fetchCall (url : String)
  | summarizeCall (url : String)
deriving DecidableEq, Repr

/-- The outcome of the loop body of `process_items` for one item: its new
row state, the per-item error strings it appended (at most one), whether it
incremented `processed_count`, and the external calls it made. -/
structure StepResult where
  item : ReadingListItem
  errors : List String
  counted : Bool
  events : List PEvent
deriving DecidableEq, Repr

/-- The summarization half of the loop body: call the summarizer oracle on
the item's content; on success set `summary`, `processed`, `processed_date`
and count the item; on a raised error record a per-item message and leave
the row as it stands (any content update already made is kept). -/
def summarizeStep (ci : Option String)
    (summ : String → Option String → Except String String) (now : Nat)
    (item : ReadingListItem) (evs : List PEvent) : StepResult :=
  match summ (item.content.getD "") ci with
  | .ok s =>
    { item := { item with summary := some s, processed := true,
                          processed_date := some now }
      errors := []
      counted := true
      events := evs ++ [PEvent.summarizeCall item.url] }
  | .error e =>
    { item := item
      errors := ["Error processing " ++ item.url ++ ": " ++ e]
      counted := false
      events := evs ++ [PEvent.summarizeCall item.url] }

/-- The loop body of `process_items` for one item (`main.py` lines 125-144).
The fetcher oracle returns `none` for a failed fetch; a falsy fetch result
records an error and leaves the item untouched; a truthy one updates
`content` before summarization. -/
def processOne (req : ProcessRequest) (ci : Option String)
    (fetch : String → Option String)
    (summ : String → Option String → Except String String) (now : Nat)
    (item : ReadingListItem) : StepResult :=
  if needsFetch req item then
    let fetched := fetch item.url
    if pyTruthyStr fetched then
      summarizeStep ci summ now { item with content := fetched }
        [PEvent.fetchCall item.url]
    else
      { item := item
        errors := ["Failed to fetch content for " ++ item.url]
        counted := false
        events := [PEvent.fetchCall item.url] }
  else
    summarizeStep ci summ now item []

/-- The batch query of `process_items`: all items under `reprocess`, else
the unprocessed ones, in table order. -/
def batchTargets (req : ProcessRequest) (store : List ReadingListItem) :
    List ReadingListItem :=
  if req.reprocess then store else store.filter fun it => !it.processed

/-- Target selection of `process_items` lines 101-120: a truthy `item_id`
selects that single row (404 if absent); otherwise the batch query runs. -/
def selectTargets (req : ProcessRequest) (store : List ReadingListItem) :
    Except ApiError (List ReadingListItem) :=
  match req.item_id with
  | some n =>
    if n != 0 then
      match store.find? (fun it => it.id == n) with
      | some it => .ok [it]
      | none => .error .itemNotFound
    else .ok (batchTargets req store)
  | none => .ok (batchTargets req store)

/-- `POST /api/process` (`main.process_items`): resolve instructions, select
targets, run the loop body on each target, commit (the returned store has
each target replaced by its new state), and report
`(store, processed_count, errors)`. -/
def process_items (req : ProcessRequest) (settings : Option String)
    (fetch : String → Option String)
    (summ : String → Option String → Except String String) (now : Nat)
    (store : List ReadingListItem) :
    Except ApiError (List ReadingListItem × Nat × List String) :=
  let ci := resolveRequestInstructions req.custom_instructions settings
  match selectTargets req store with
  | .error e => .error e
  | .ok targets =>
    let results := targets.map (processOne req ci fetch summ now)
    let newStore := store.map fun it =>
      match results.find? (fun r => r.item.id == it.id) with
      | some r => r.item
      | none => it
    .ok (newStore, (results.filter (·.counted)).length,
         results.flatMap (·.errors))

/-- `POST /api/settings` (`main.update_settings`): upsert the
`custom_instructions` row when the body carries a value; items untouched.
The state is `(items, custom_instructions row)`. -/
def update_settings (body : Option String)
    (st : List ReadingListItem × Option String) :
    List ReadingListItem × Option String :=
  match body with
  | some v => (st.1, some v)
  | none => st

/-- `DELETE /api/items/id` (`main.delete_item`): remove the row with the
given id, 404 if absent. -/
def delete_item (item_id : Nat) (store : List ReadingListItem) :
    Except ApiError (List ReadingListItem) :=
  match store.find? (fun it => it.id == item_id) with
  | none => .error .itemNotFound
  | some _ => .ok (store.eraseP fun it => it.id == item_id)

/-- The data-model invariant: a processed item has a summary and a processed
date. -/
def ItemInvariant (it : ReadingListItem) : Prop :=
  it.processed = true → it.summary ≠ none ∧ it.processed_date ≠ none

instance (it : ReadingListItem) : Decidable (ItemInvariant it) := by
  unfold ItemInvariant; infer_instance

/-! ### Concrete test fixtures -/

/-- A bookmark folder node carrying the sentinel title and nothing else. -/
def sentinelFolderData : NodeData :=
  { title := some sentinelTitle, urlString := none, uriTitle := none,
    previewText := none, dateAdded := none }

/-- A bookmark item node with URL, title, preview and date. -/
def innerItemData : NodeData :=
  { title := none, urlString := some "https://inner", uriTitle := some "Inner",
    previewText := some "p", dateAdded := some 3 }

/-- A forest holding one sentinel folder with a single item child. -/
def nestedSentinelForest : BForest :=
  .cons (.folder sentinelFolderData (.cons (.leaf innerItemData) .nil)) .nil

/-- A tree whose sentinel folder contains a nested sentinel folder. -/
def c7tree : BForest :=
  .cons (.folder sentinelFolderData nestedSentinelForest) .nil

/-- An environment with every dispatcher variable unset. -/
def envUnset : LLMEnv :=
  { llm_provider := none, llm_model := none, github_token := none,
    anthropic_api_key := none, openai_api_key := none }

/-- An environment holding only a GitHub token. -/
def envGithubOnly : LLMEnv :=
  { llm_provider := none, llm_model := none, github_token := some "tok",
    anthropic_api_key := none, openai_api_key := none }

/-- An HTML document with script, style and nav blocks plus body text
containing runs of multiple spaces and a blank text node. -/
def sampleDoc : HForest :=
  .hcons (.helem "script" (.hcons (.htext "SCRIPTDATA".toList) .hnil))
    (.hcons (.helem "style" (.hcons (.htext "STYLEDATA".toList) .hnil))
      (.hcons (.helem "nav" (.hcons (.htext "NAVDATA".toList) .hnil))
        (.hcons (.htext "  Hello   world  ".toList)
          (.hcons (.htext "   ".toList)
            (.hcons (.htext "Second  line".toList) .hnil)))))

/-- A fresh unprocessed persisted item. -/
def mkUnprocessed (i : Nat) (u : String) : ReadingListItem :=
  { id := i, url := u, title := some u, preview_text := none, content := none,
    summary := none, processed := false, added_date := 0,
    processed_date := none }

/-- A three-item store whose second item's URL will fail to fetch. -/
def c1store : List ReadingListItem :=
  [mkUnprocessed 1 "u1", mkUnprocessed 2 "u2", mkUnprocessed 3 "u3"]

/-- A fetch oracle failing exactly on `"u2"`. -/
def c1fetch : String → Option String :=
  fun u => if u = "u2" then none else some ("text " ++ u)

/-- A summarizer oracle that always succeeds. -/
def c1summ : String → Option String → Except String String :=
  fun c _ => .ok ("sum " ++ c)

/-- The plain batch request: no item id, no reprocess, no instructions. -/
def batchRequest : ProcessRequest :=
  { item_id := none, reprocess := false, custom_instructions := none }

/-- A fetch oracle that always succeeds. -/
def alwaysFetch : String → Option String :=
  fun u => some ("text " ++ u)

/-- A summarizer oracle that always raises. -/
def failingSumm : String → Option String → Except String String :=
  fun _ _ => .error "boom"

/-- The provider call issued for the two-character content `"hi"` under an
environment holding only a GitHub token. -/
def c4call : ProviderCall :=
  { provider := "github"
    base_url := some "https://models.github.ai/inference"
    model := "gpt-4o"
    api_key := "tok"
    system_message := some assistant_system_message
    prompt := buildPrompt default_instructions ('h' :: 'i' :: [])
    max_tokens := 1024
    has_temperature := true }

/-- The state of a fetched-and-summarized item of the three-item batch. -/
def mkProcessed (i : Nat) (u : String) : ReadingListItem :=
  { id := i, url := u, title := some u, preview_text := none,
    content := some ("text " ++ u), summary := some ("sum " ++ ("text " ++ u)),
    processed := true, added_date := 0, processed_date := some 7 }

/-- The expected store after processing `c1store`: items 1 and 3 processed,
item 2 untouched. -/
def c1expectedStore : List ReadingListItem :=
  [mkProcessed 1 "u1", mkUnprocessed 2 "u2", mkProcessed 3 "u3"]

/-! ## Supporting lemmas -/

theorem truncateContent_of_le (content : List Char)
    (h : content.length ≤ max_chars) : truncateContent content = content := by
  rw [truncateContent, if_neg (by omega)]

theorem truncateContent_of_gt (content : List Char)
    (h : max_chars < content.length) :
    truncateContent content = content.take max_chars ++ truncation_marker := by
  rw [truncateContent, if_pos h]

theorem summarize_with_llm_prompt (env : LLMEnv) (content : List Char)
    (ci : Option (List Char)) (key prov m : Option String)
    (call : ProviderCall)
    (h : summarize_with_llm env content ci key prov m = Except.ok call) :
    call.prompt = buildPrompt (resolveInstructions ci) (truncateContent content) := by
  simp only [summarize_with_llm] at h
  split at h
  · split at h
    · obtain rfl := (Except.ok.inj h).symm
      rfl
    · simp at h
  · split at h
    · split at h
      · obtain rfl := (Except.ok.inj h).symm
        rfl
      · simp at h
    · split at h
      · split at h
        · obtain rfl := (Except.ok.inj h).symm
          rfl
        · simp at h
      · simp at h

end ReadingListProcessor

namespace ReadingListProcessor

/-! ## Claim theorems -/

/-- C4: content longer than 400,000 characters enters the prompt as exactly
its first 400,000 characters followed by the truncation marker; shorter or
equal content passes through unchanged; and the content portion of the
prompt of every provider call actually issued is the truncated content. -/
theorem c4_content_truncation (content : List Char) :
    (max_chars < content.length →
      truncateContent content = content.take max_chars ++ truncation_marker)
    ∧ (content.length ≤ max_chars → truncateContent content = content)
    ∧ ∀ env ci key prov m call,
        summarize_with_llm env content ci key prov m = Except.ok call →
        call.prompt =
          buildPrompt (resolveInstructions ci) (truncateContent content) :=
  ⟨truncateContent_of_gt content, truncateContent_of_le content,
   fun env ci key prov m call h =>
     summarize_with_llm_prompt env content ci key prov m call h⟩

/-- C4 witness: both truncation branches and the prompt property at concrete
inputs. -/
theorem c4_content_truncation_witness :
    (max_chars < (List.replicate (max_chars + 1) 'a').length ∧
      truncateContent (List.replicate (max_chars + 1) 'a') =
        (List.replicate (max_chars + 1) 'a').take max_chars ++
          truncation_marker)
    ∧ (('h' :: 'i' :: []).length ≤ max_chars ∧
        truncateContent ('h' :: 'i' :: []) = 'h' :: 'i' :: [])
    ∧ (summarize_with_llm envGithubOnly ('h' :: 'i' :: []) none none none
          none = Except.ok c4call ∧
        c4call.prompt =
          buildPrompt (resolveInstructions none)
            (truncateContent ('h' :: 'i' :: []))) := by
  refine ⟨⟨?_, ?_⟩, ⟨?_, ?_⟩, ?_, ?_⟩
  · rw [List.length_replicate]
    exact Nat.lt_succ_self _
  · exact (c4_content_truncation (List.replicate (max_chars + 1) 'a')).1
      (by rw [List.length_replicate]; exact Nat.lt_succ_self _)
  · decide
  · exact (c4_content_truncation ('h' :: 'i' :: [])).2.1 (by decide)
  · rfl
  · exact (c4_content_truncation ('h' :: 'i' :: [])).2.2 envGithubOnly none
      none none none c4call (by rfl)

/-- C5: a resolved provider outside the three supported names makes
`summarize_with_llm` fail with the unknown-provider `ValueError` (the spec's
`ConfigurationError`), and a supported provider with no explicit key and an
unset credential variable fails with the missing-credential `ValueError`;
in both cases the result is an error, so no `ProviderCall` is produced. -/
theorem c5_dispatcher_configuration_failures :
    (∀ env content ci key prov m,
      resolveProvider prov env ∉ (["github", "anthropic", "openai"] : List String) →
      summarize_with_llm env content ci key prov m =
        Except.error (.valueError
          ("Unknown LLM provider: " ++ resolveProvider prov env)))
    ∧ (∀ env content ci prov m,
        resolveProvider prov env = "github" → env.github_token = none →
        summarize_with_llm env content ci none prov m =
          Except.error (.valueError "GitHub token not provided"))
    ∧ (∀ env content ci prov m,
        resolveProvider prov env = "anthropic" → env.anthropic_api_key = none →
        summarize_with_llm env content ci none prov m =
          Except.error (.valueError "Anthropic API key not provided"))
    ∧ (∀ env content ci prov m,
        resolveProvider prov env = "openai" → env.openai_api_key = none →
        summarize_with_llm env content ci none prov m =
          Except.error (.valueError "OpenAI API key not provided")) := by
  refine ⟨?_, ?_, ?_, ?_⟩
  · intro env content ci key prov m h
    simp only [List.mem_cons, List.mem_singleton, not_or] at h
    obtain ⟨h1, h2, h3, _⟩ := h
    simp [summarize_with_llm, h1, h2, h3]
  · intro env content ci prov m h1 h2
    simp [summarize_with_llm, h1, h2, resolveKey, pyTruthyStr]
  · intro env content ci prov m h1 h2
    have hng : resolveProvider prov env ≠ "github" := by rw [h1]; decide
    simp [summarize_with_llm, h1, hng, h2, resolveKey, pyTruthyStr]
  · intro env content ci prov m h1 h2
    have hng : resolveProvider prov env ≠ "github" := by rw [h1]; decide
    have hna : resolveProvider prov env ≠ "anthropic" := by rw [h1]; decide
    simp [summarize_with_llm, h1, hng, hna, h2, resolveKey, pyTruthyStr]

/-- C5 witness: the unknown-provider case and all three missing-credential
cases at concrete inputs. -/
theorem c5_dispatcher_configuration_failures_witness :
    (resolveProvider (some "bogus") envUnset ∉
        (["github", "anthropic", "openai"] : List String) ∧
      summarize_with_llm envUnset ('x' :: []) none none (some "bogus") none =
        Except.error (.valueError
          ("Unknown LLM provider: " ++ resolveProvider (some "bogus") envUnset)))
    ∧ (resolveProvider none envUnset = "github" ∧
        envUnset.github_token = none ∧
        summarize_with_llm envUnset ('x' :: []) none none none none =
          Except.error (.valueError "GitHub token not provided"))
    ∧ (resolveProvider (some "anthropic") envUnset = "anthropic" ∧
        summarize_with_llm envUnset ('x' :: []) none none (some "anthropic")
            none =
          Except.error (.valueError "Anthropic API key not provided"))
    ∧ (resolveProvider (some "openai") envUnset = "openai" ∧
        summarize_with_llm envUnset ('x' :: []) none none (some "openai")
            none =
          Except.error (.valueError "OpenAI API key not provided")) := by
  refine ⟨⟨by decide, ?_⟩, ⟨by decide, by decide, ?_⟩, ⟨by decide, ?_⟩,
    ⟨by decide, ?_⟩⟩
  · exact c5_dispatcher_configuration_failures.1 envUnset ('x' :: []) none none
      (some "bogus") none (by decide)
  · exact c5_dispatcher_configuration_failures.2.1 envUnset ('x' :: []) none
      none none (by decide) (by decide)
  · exact c5_dispatcher_configuration_failures.2.2.1 envUnset ('x' :: []) none
      (some "anthropic") none (by decide) (by decide)
  · exact c5_dispatcher_configuration_failures.2.2.2 envUnset ('x' :: []) none
      (some "openai") none (by decide) (by decide)

/-- C7 counterexample: in `c7tree` the outer sentinel folder contains a
nested reading-list folder whose entries (the single `innerItemData` entry)
are not collected, because traversal does not descend into a matched
folder's subtree; instead the nested folder itself is emitted as a blank
entry. This refutes the claim that the search descends into every node,
including nodes inside a matched folder's subtree. -/
theorem c7_traversal_counterexample :
    traverseNode (BNode.folder sentinelFolderData
        (BForest.cons (BNode.leaf innerItemData) BForest.nil)) =
      [entryOf innerItemData] ∧
    traverse_bookmarks c7tree = [entryOf sentinelFolderData] ∧
    entryOf innerItemData ∉ traverse_bookmarks c7tree := by
  decide

/-- C7 (amended): the recursive search descends into every node that has
children and is not itself titled `com.apple.ReadingList`; a matched
reading-list folder contributes only its direct children as entries and is
not descended into, so a reading-list folder nested inside a matched
folder's subtree is not collected; siblings of a matched folder are still
scanned. -/
theorem c7_traversal_scope :
    (∀ d cs, d.title ≠ some sentinelTitle →
      traverseNode (BNode.folder d cs) = traverse_bookmarks cs)
    ∧ (∀ d cs, d.title = some sentinelTitle →
        traverseNode (BNode.folder d cs) = entriesOfForest cs)
    ∧ (∀ d, traverseNode (BNode.leaf d) = [])
    ∧ ∀ n ns, traverse_bookmarks (BForest.cons n ns) =
        traverseNode n ++ traverse_bookmarks ns := by
  refine ⟨?_, ?_, ?_, ?_⟩
  · intro d cs h
    simp [traverseNode, h]
  · intro d cs h
    simp [traverseNode, h]
  · intro d
    rfl
  · intro n ns
    rfl

/-- C7 witness: the amended traversal behavior at a sentinel-titled folder
and at an untitled one. -/
theorem c7_traversal_scope_witness :
    (innerItemData.title ≠ some sentinelTitle ∧
      traverseNode (BNode.folder innerItemData nestedSentinelForest) =
        traverse_bookmarks nestedSentinelForest)
    ∧ (sentinelFolderData.title = some sentinelTitle ∧
        traverseNode (BNode.folder sentinelFolderData nestedSentinelForest) =
          entriesOfForest nestedSentinelForest) :=
  ⟨⟨by decide,
    c7_traversal_scope.1 innerItemData nestedSentinelForest (by decide)⟩,
   ⟨by decide,
    c7_traversal_scope.2.1 sentinelFolderData nestedSentinelForest
      (by decide)⟩⟩

theorem nonempty_isEmpty_false (s : String) (h : s ≠ "") :
    s.isEmpty = false := by
  rw [Bool.eq_false_iff]
  intro hh
  exact h ((String.isEmpty_iff s).mp hh)

theorem summarizeStep_item_id (ci : Option String)
    (summ : String → Option String → Except String String) (now : Nat)
    (item : ReadingListItem) (evs : List PEvent) :
    (summarizeStep ci summ now item evs).item.id = item.id := by
  unfold summarizeStep
  split <;> rfl

theorem processOne_item_id (req : ProcessRequest) (ci : Option String)
    (fetch : String → Option String)
    (summ : String → Option String → Except String String) (now : Nat)
    (it : ReadingListItem) :
    (processOne req ci fetch summ now it).item.id = it.id := by
  simp only [processOne]
  split
  · split
    · exact summarizeStep_item_id ci summ now _ _
    · rfl
  · exact summarizeStep_item_id ci summ now _ _

theorem processOne_item_invariant (req : ProcessRequest) (ci : Option String)
    (fetch : String → Option String)
    (summ : String → Option String → Except String String) (now : Nat)
    (it : ReadingListItem) (h : ItemInvariant it) :
    ItemInvariant (processOne req ci fetch summ now it).item := by
  simp only [processOne, summarizeStep]
  repeat' split
  all_goals simp_all [ItemInvariant]

theorem find?_step_eq_some (p : ReadingListItem → Bool)
    (step : ReadingListItem → StepResult)
    (hpres : ∀ x, (step x).item.id = x.id) :
    ∀ (store : List ReadingListItem),
      (store.map (fun x => x.id)).Nodup →
      ∀ it ∈ store, p it = true →
      ((store.filter p).map step).find? (fun r => r.item.id == it.id) =
        some (step it) := by
  intro store
  induction store with
  | nil =>
    intro _ it hmem
    simp at hmem
  | cons a rest ih =>
    intro hnodup it hmem hp
    rw [List.map_cons, List.nodup_cons] at hnodup
    obtain ⟨hida, hnd⟩ := hnodup
    rcases List.mem_cons.mp hmem with rfl | hmem2
    · rw [List.filter_cons_of_pos hp, List.map_cons]
      apply List.find?_cons_of_pos
      simp [hpres]
    · have hne : a.id ≠ it.id := by
        intro he
        exact hida (he ▸ List.mem_map_of_mem (fun x => x.id) hmem2)
      by_cases hpa : p a = true
      · rw [List.filter_cons_of_pos hpa, List.map_cons,
          List.find?_cons_of_neg]
        · exact ih hnd it hmem2 hp
        · simp [hpres, hne]
      · rw [List.filter_cons_of_neg hpa]
        exact ih hnd it hmem2 hp

theorem find?_step_eq_none (p : ReadingListItem → Bool)
    (step : ReadingListItem → StepResult)
    (hpres : ∀ x, (step x).item.id = x.id)
    (store : List ReadingListItem)
    (hnodup : (store.map (fun x => x.id)).Nodup)
    (it : ReadingListItem) (hmem : it ∈ store) (hp : p it = false) :
    ((store.filter p).map step).find? (fun r => r.item.id == it.id) =
      none := by
  rw [List.find?_eq_none]
  intro r hr
  rw [List.mem_map] at hr
  obtain ⟨x, hx, rfl⟩ := hr
  rw [List.mem_filter] at hx
  obtain ⟨hxs, hpx⟩ := hx
  have hxid : x.id ≠ it.id := by
    intro he
    have hxy : x = it := List.inj_on_of_nodup_map hnodup hxs hmem he
    rw [hxy] at hpx
    rw [hpx] at hp
    exact Bool.true_eq_false.mp hp
  simp [hpres, hxid]

theorem batchTargets_eq_filter (req : ProcessRequest)
    (store : List ReadingListItem) :
    batchTargets req store =
      store.filter (fun it => req.reprocess || !it.processed) := by
  unfold batchTargets
  cases hr : req.reprocess
  · simp
  · simp

theorem batchTargets_mem (req : ProcessRequest)
    (store : List ReadingListItem) (it : ReadingListItem)
    (h : it ∈ batchTargets req store) : it ∈ store := by
  rw [batchTargets_eq_filter] at h
  exact List.mem_of_mem_filter h

theorem selectTargets_mem (req : ProcessRequest)
    (store ts : List ReadingListItem)
    (h : selectTargets req store = Except.ok ts) :
    ∀ it ∈ ts, it ∈ store := by
  unfold selectTargets at h
  split at h
  · split at h
    · split at h
      · obtain rfl := Except.ok.inj h
        intro it hit
        rw [List.mem_singleton] at hit
        subst hit
        exact List.mem_of_find?_eq_some (by assumption)
      · exact absurd h (by simp)
    · obtain rfl := Except.ok.inj h
      exact fun it hit => batchTargets_mem req store it hit
  · obtain rfl := Except.ok.inj h
    exact fun it hit => batchTargets_mem req store it hit

theorem process_items_batch_spec (req : ProcessRequest)
    (settings : Option String) (fetch : String → Option String)
    (summ : String → Option String → Except String String) (now : Nat)
    (store : List ReadingListItem)
    (hid : req.item_id = none)
    (hnodup : (store.map (fun x => x.id)).Nodup) :
    process_items req settings fetch summ now store =
      Except.ok
        (store.map fun it =>
          if req.reprocess || !it.processed then
            (processOne req
              (resolveRequestInstructions req.custom_instructions settings)
              fetch summ now it).item
          else it,
         (((batchTargets req store).map
            (processOne req
              (resolveRequestInstructions req.custom_instructions settings)
              fetch summ now)).filter (fun r => r.counted)).length,
         ((batchTargets req store).map
            (processOne req
              (resolveRequestInstructions req.custom_instructions settings)
              fetch summ now)).flatMap (fun r => r.errors)) := by
  have hsel : selectTargets req store = Except.ok (batchTargets req store) := by
    unfold selectTargets
    rw [hid]
  unfold process_items
  rw [hsel]
  refine congrArg Except.ok ?_
  refine Prod.ext ?_ rfl
  rw [batchTargets_eq_filter]
  apply List.map_congr_left
  intro it hmem
  by_cases hp : (req.reprocess || !it.processed) = true
  · rw [find?_step_eq_some (fun x => req.reprocess || !x.processed) _
      (fun x => processOne_item_id req _ fetch summ now x) store hnodup it
      hmem hp]
    rw [if_pos hp]
  · rw [find?_step_eq_none (fun x => req.reprocess || !x.processed) _
      (fun x => processOne_item_id req _ fetch summ now x) store hnodup it
      hmem (Bool.not_eq_true _ ▸ Bool.of_not_eq_true hp)]
    rw [if_neg hp]

theorem syncFold_invariant (now : Nat) :
    ∀ (entries : List ReadingListEntry)
      (acc : List ReadingListItem × Nat × Nat),
      (∀ it ∈ acc.1, ItemInvariant it) →
      ∀ it ∈ (entries.foldl (syncInsert now) acc).1, ItemInvariant it := by
  intro entries
  induction entries with
  | nil => exact fun acc h it hm => h it hm
  | cons e rest ih =>
    intro acc h
    rw [List.foldl_cons]
    apply ih
    intro it hm
    unfold syncInsert at hm
    by_cases hc : acc.1.any (fun x => x.url == e.url) = true
    · rw [if_pos hc] at hm
      exact h it hm
    · rw [if_neg hc] at hm
      rcases List.mem_append.mp hm with h1 | h1
      · exact h it h1
      · rw [List.mem_singleton] at h1
        subst h1
        intro hp
        simp [newItemFromEntry] at hp

/-- C1: process-batch isolation. Concretely: for the three-item batch where
item 2's fetch returns `none` and the others fetch and summarize
successfully, the report is `processed_count = 2` with exactly one error
naming item 2's URL, items 1 and 3 end processed and item 2 stays
unprocessed. Generally: every batch invocation returns `Except.ok`, and the
final state of each stored item is a function of that item alone
(`processOne` applied to it), so one item's fetch or summarization failure
never aborts or alters the processing of the remaining items. -/
theorem c1_process_batch_isolation :
    (process_items batchRequest none c1fetch c1summ 7 c1store =
      Except.ok (c1expectedStore, 2, ["Failed to fetch content for u2"]))
    ∧ ∀ req settings fetch summ now store,
        req.item_id = none → (store.map (fun x => x.id)).Nodup →
        process_items req settings fetch summ now store =
          Except.ok
            (store.map fun it =>
              if req.reprocess || !it.processed then
                (processOne req
                  (resolveRequestInstructions req.custom_instructions
                    settings) fetch summ now it).item
              else it,
             (((batchTargets req store).map
                (processOne req
                  (resolveRequestInstructions req.custom_instructions
                    settings) fetch summ now)).filter
                (fun r => r.counted)).length,
             ((batchTargets req store).map
                (processOne req
                  (resolveRequestInstructions req.custom_instructions
                    settings) fetch summ now)).flatMap (fun r => r.errors)) :=
  ⟨by decide,
   fun req settings fetch summ now store hid hnodup =>
     process_items_batch_spec req settings fetch summ now store hid hnodup⟩

/-- C1 witness: the general batch form instantiated on the three-item
store. -/
theorem c1_process_batch_isolation_witness :
    batchRequest.item_id = none ∧
    (c1store.map (fun x => x.id)).Nodup ∧
    process_items batchRequest none c1fetch c1summ 7 c1store =
      Except.ok
        (c1store.map fun it =>
          if batchRequest.reprocess || !it.processed then
            (processOne batchRequest
              (resolveRequestInstructions batchRequest.custom_instructions
                none) c1fetch c1summ 7 it).item
          else it,
         (((batchTargets batchRequest c1store).map
            (processOne batchRequest
              (resolveRequestInstructions batchRequest.custom_instructions
                none) c1fetch c1summ 7)).filter
            (fun r => r.counted)).length,
         ((batchTargets batchRequest c1store).map
            (processOne batchRequest
              (resolveRequestInstructions batchRequest.custom_instructions
                none) c1fetch c1summ 7)).flatMap (fun r => r.errors)) :=
  ⟨rfl, by decide,
   c1_process_batch_isolation.2 batchRequest none c1fetch c1summ 7 c1store
     rfl (by decide)⟩

/-- C3: the invariant "processed implies summary and processed date are
set" is preserved by every operation: sync, process (any request shape),
settings update and delete. -/
theorem c3_processed_invariant :
    (∀ entries now nextId store,
      (∀ it ∈ store, ItemInvariant it) →
      ∀ it ∈ (sync_reading_list entries now nextId store).1,
        ItemInvariant it)
    ∧ (∀ req settings fetch summ now store ns cnt errs,
        (∀ it ∈ store, ItemInvariant it) →
        process_items req settings fetch summ now store =
          Except.ok (ns, cnt, errs) →
        ∀ it ∈ ns, ItemInvariant it)
    ∧ (∀ body st,
        (∀ it ∈ st.1, ItemInvariant it) →
        ∀ it ∈ (update_settings body st).1, ItemInvariant it)
    ∧ ∀ item_id store ns,
        (∀ it ∈ store, ItemInvariant it) →
        delete_item item_id store = Except.ok ns →
        ∀ it ∈ ns, ItemInvariant it := by
  refine ⟨?_, ?_, ?_, ?_⟩
  · intro entries now nextId store h
    exact syncFold_invariant now entries (store, 0, nextId) h
  · intro req settings fetch summ now store ns cnt errs hinv h
    unfold process_items at h
    rcases hsel : selectTargets req store with e | targets <;> rw [hsel] at h
    · exact absurd h (by simp)
    · obtain heq := Except.ok.inj h
      obtain ⟨h1, _⟩ := Prod.mk.injEq .. ▸ heq
      intro it hm
      rw [← h1] at hm
      rw [List.mem_map] at hm
      obtain ⟨x, hx, hfx⟩ := hm
      rcases hfind : (targets.map
          (processOne req
            (resolveRequestInstructions req.custom_instructions settings)
            fetch summ now)).find? (fun r => r.item.id == x.id)
        with _ | r <;> rw [hfind] at hfx
      · rw [← hfx]
        exact hinv x hx
      · have hr := List.mem_of_find?_eq_some hfind
        rw [List.mem_map] at hr
        obtain ⟨y, hy, hry⟩ := hr
        have hys := selectTargets_mem req store targets hsel y hy
        rw [← hfx, ← hry]
        exact processOne_item_invariant req _ fetch summ now y (hinv y hys)
  · intro body st h
    unfold update_settings
    rcases body with _ | v
    · exact h
    · exact h
  · intro item_id store ns hinv h
    unfold delete_item at h
    rcases hfind : store.find? (fun x => x.id == item_id)
      with _ | found <;> rw [hfind] at h
    · exact absurd h (by simp)
    · obtain rfl := Except.ok.inj h
      intro it hm
      exact hinv it ((List.eraseP_sublist store).subset hm)

/-- C3 witness: the sync conjunct applied to a one-item store. -/
theorem c3_processed_invariant_witness :
    ItemInvariant (mkUnprocessed 1 "u1") :=
  c3_processed_invariant.1 [] 0 5 [mkUnprocessed 1 "u1"] (by decide)
    (mkUnprocessed 1 "u1") (by decide)

/-- C9: for a target item whose stored content is not the empty string (the
app never stores an empty string: content is only written from a truthy
fetch result) and a request whose `item_id` is not the never-generated id 0,
fetching is skipped exactly when content exists and neither `reprocess` nor
a single-item request is present; in every other case the loop body calls
the fetcher on the item's URL as its first external call, before any
summarization. -/
theorem c9_process_fetch_skip (req : ProcessRequest) (ci : Option String)
    (fetch : String → Option String)
    (summ : String → Option String → Except String String) (now : Nat)
    (it : ReadingListItem)
    (hc : it.content ≠ some "") (hz : req.item_id ≠ some 0) :
    (needsFetch req it = false ↔
      it.content ≠ none ∧ req.reprocess = false ∧ req.item_id = none)
    ∧ (needsFetch req it = false →
        PEvent.fetchCall it.url ∉ (processOne req ci fetch summ now it).events)
    ∧ (needsFetch req it = true →
        (processOne req ci fetch summ now it).events.head? =
          some (PEvent.fetchCall it.url)) := by
  refine ⟨?_, ?_, ?_⟩
  · unfold needsFetch pyTruthyStr pyTruthyNat
    rcases hcon : it.content with _ | s
    · simp
    · have hs : s ≠ "" := fun he => hc (by rw [hcon, he])
      rcases hiid : req.item_id with _ | n
      · cases hr : req.reprocess <;>
          simp [nonempty_isEmpty_false s hs, hr]
      · have hn : n ≠ 0 := fun he => hz (by rw [hiid, he])
        cases hr : req.reprocess <;>
          simp [nonempty_isEmpty_false s hs, hr, hn]
  · intro h
    simp only [processOne, h, Bool.false_eq_true, if_false, summarizeStep]
    split <;> simp
  · intro h
    simp only [processOne, h, if_true]
    by_cases hf : pyTruthyStr (fetch it.url) = true
    · simp only [hf, if_true, summarizeStep]
      split <;> rfl
    · simp only [hf, if_false]
      rfl

/-- C9 witness: a fresh unprocessed item under the plain batch request needs
a fetch, and the fetch call is first. -/
theorem c9_process_fetch_skip_witness :
    needsFetch batchRequest (mkUnprocessed 1 "u1") = true ∧
    (processOne batchRequest none alwaysFetch c1summ 7
        (mkUnprocessed 1 "u1")).events.head? =
      some (PEvent.fetchCall (mkUnprocessed 1 "u1").url) :=
  ⟨by decide,
   (c9_process_fetch_skip batchRequest none alwaysFetch c1summ 7
      (mkUnprocessed 1 "u1") (by decide) (by decide)).2.2 (by decide)⟩

/-- C10: when an item's fetch succeeds but summarization raises, the loop
body leaves the item with its `content` replaced by the fetched text and
its `summary`, `processed` and `processed_date` untouched, records the
per-item error, and a batch commit persists exactly that content-updated
row — error atomicity does not hold for `content`. -/
theorem c10_fetched_content_survives_summarize_failure
    (req : ProcessRequest) (ci : Option String)
    (fetch : String → Option String)
    (summ : String → Option String → Except String String) (now : Nat)
    (it : ReadingListItem) (t e : String)
    (hf : needsFetch req it = true) (hfe : fetch it.url = some t)
    (ht : t ≠ "") (hs : summ t ci = Except.error e) :
    processOne req ci fetch summ now it =
      { item := { it with content := some t }
        errors := ["Error processing " ++ it.url ++ ": " ++ e]
        counted := false
        events := [PEvent.fetchCall it.url, PEvent.summarizeCall it.url] }
    ∧ ∀ settings store ns cnt errs,
        req.item_id = none → (store.map (fun x => x.id)).Nodup →
        (req.reprocess || !it.processed) = true → it ∈ store →
        resolveRequestInstructions req.custom_instructions settings = ci →
        process_items req settings fetch summ now store =
          Except.ok (ns, cnt, errs) →
        { it with content := some t } ∈ ns := by
  have hstep : processOne req ci fetch summ now it =
      { item := { it with content := some t }
        errors := ["Error processing " ++ it.url ++ ": " ++ e]
        counted := false
        events := [PEvent.fetchCall it.url, PEvent.summarizeCall it.url] } := by
    have htr : pyTruthyStr (fetch it.url) = true := by
      rw [hfe]
      simp [pyTruthyStr, nonempty_isEmpty_false t ht]
    simp only [processOne, hf, if_true, htr, summarizeStep, hfe]
    have hget : (Option.getD (some t) "") = t := rfl
    rw [hget, hs]
    have htr2 : pyTruthyStr (some t) = true := by
      simp [pyTruthyStr, nonempty_isEmpty_false t ht]
    rw [if_pos htr2]
    rfl
  refine ⟨hstep, ?_⟩
  intro settings store ns cnt errs hid hnodup htarg hmem hci h
  rw [process_items_batch_spec req settings fetch summ now store hid hnodup]
    at h
  obtain heq := Except.ok.inj h
  obtain ⟨h1, _⟩ := Prod.mk.injEq .. ▸ heq
  rw [← h1]
  have : (if req.reprocess || !it.processed then
      (processOne req
        (resolveRequestInstructions req.custom_instructions settings)
        fetch summ now it).item
    else it) = { it with content := some t } := by
    rw [if_pos htarg, hci, hstep]
  rw [← this]
  exact List.mem_map_of_mem _ hmem

/-- C10 witness: a one-item batch with an always-raising summarizer commits
the fetched content. -/
theorem c10_fetched_content_survives_summarize_failure_witness :
    processOne batchRequest none alwaysFetch failingSumm 7
        (mkUnprocessed 1 "u1") =
      { item := { mkUnprocessed 1 "u1" with content := some "text u1" }
        errors := ["Error processing u1: boom"]
        counted := false
        events := [PEvent.fetchCall "u1", PEvent.summarizeCall "u1"] } ∧
    { mkUnprocessed 1 "u1" with content := some "text u1" } ∈
      [{ mkUnprocessed 1 "u1" with content := some "text u1" }] :=
  ⟨(c10_fetched_content_survives_summarize_failure batchRequest none
      alwaysFetch failingSumm 7 (mkUnprocessed 1 "u1") "text u1" "boom"
      (by decide) (by decide) (by decide) rfl).1,
   (c10_fetched_content_survives_summarize_failure batchRequest none
      alwaysFetch failingSumm 7 (mkUnprocessed 1 "u1") "text u1" "boom"
      (by decide) (by decide) (by decide) rfl).2 none [mkUnprocessed 1 "u1"]
      [{ mkUnprocessed 1 "u1" with content := some "text u1" }] 0
      ["Error processing u1: boom"] rfl (by decide) (by decide) (by decide)
      rfl (by decide)⟩

theorem containsUrl_syncInsert (now : Nat)
    (acc : List ReadingListItem × Nat × Nat) (e : ReadingListEntry)
    (u : String) (h : acc.1.any (fun x => x.url == u) = true) :
    (syncInsert now acc e).1.any (fun x => x.url == u) = true := by
  unfold syncInsert
  by_cases hc : acc.1.any (fun x => x.url == e.url) = true
  · rw [if_pos hc]
    exact h
  · rw [if_neg hc]
    rw [List.any_append]
    rw [h]
    rfl

theorem containsUrl_syncFold (now : Nat) :
    ∀ (entries : List ReadingListEntry)
      (acc : List ReadingListItem × Nat × Nat) (u : String),
      acc.1.any (fun x => x.url == u) = true →
      (entries.foldl (syncInsert now) acc).1.any (fun x => x.url == u) =
        true := by
  intro entries
  induction entries with
  | nil => exact fun acc u h => h
  | cons e rest ih =>
    intro acc u h
    rw [List.foldl_cons]
    exact ih (syncInsert now acc e) u (containsUrl_syncInsert now acc e u h)

theorem syncFold_covers (now : Nat) :
    ∀ (entries : List ReadingListEntry)
      (acc : List ReadingListItem × Nat × Nat),
      ∀ e ∈ entries,
        (entries.foldl (syncInsert now) acc).1.any
          (fun x => x.url == e.url) = true := by
  intro entries
  induction entries with
  | nil =>
    intro acc e hmem
    simp at hmem
  | cons e0 rest ih =>
    intro acc e hmem
    rw [List.foldl_cons]
    rcases List.mem_cons.mp hmem with rfl | hmem2
    · apply containsUrl_syncFold now rest
      unfold syncInsert
      by_cases hc : acc.1.any (fun x => x.url == e.url) = true
      · rw [if_pos hc]
        exact hc
      · rw [if_neg hc]
        rw [List.any_append]
        simp [newItemFromEntry]
    · exact ih (syncInsert now acc e0) e hmem2

theorem syncFold_noop (now : Nat) :
    ∀ (entries : List ReadingListEntry)
      (acc : List ReadingListItem × Nat × Nat),
      (∀ e ∈ entries, acc.1.any (fun x => x.url == e.url) = true) →
      entries.foldl (syncInsert now) acc = acc := by
  intro entries
  induction entries with
  | nil => exact fun acc _ => rfl
  | cons e rest ih =>
    intro acc h
    rw [List.foldl_cons]
    have he : acc.1.any (fun x => x.url == e.url) = true :=
      h e (List.mem_cons_self e rest)
    have hstep : syncInsert now acc e = acc := by
      unfold syncInsert
      rw [if_pos he]
    rw [hstep]
    exact ih acc (fun x hx => h x (List.mem_cons_of_mem e hx))

/-- C2: sync idempotence. For every extracted entry list, every persisted
store, and any timestamps and id counters, a second sync of the same
entries against the store left by the first sync inserts zero new items:
after the first run every entry's URL is present, and an entry whose URL
already exists is never inserted. -/
theorem c2_sync_idempotence (entries : List ReadingListEntry)
    (store : List ReadingListItem) (now1 now2 nextId1 nextId2 : Nat) :
    (sync_reading_list entries now2 nextId2
      (sync_reading_list entries now1 nextId1 store).1).2 = 0 := by
  unfold sync_reading_list
  have hcov : ∀ e ∈ entries,
      ((entries.foldl (syncInsert now1) (store, 0, nextId1)).1).any
        (fun x => x.url == e.url) = true :=
    fun e he => syncFold_covers now1 entries (store, 0, nextId1) e he
  rw [syncFold_noop now2 entries
    ((entries.foldl (syncInsert now1) (store, 0, nextId1)).1, 0, nextId2)
    (fun e he => hcov e he)]

mutual
theorem traverseNode_nil_of_count0 : ∀ n, sentinelFolderCountN n = 0 →
    traverseNode n = []
  | .leaf _, _ => rfl
  | .folder d cs, h => by
    by_cases hd : d.title = some sentinelTitle
    · exfalso
      simp only [sentinelFolderCountN, if_pos hd] at h
      omega
    · simp only [sentinelFolderCountN, if_neg hd, Nat.zero_add] at h
      simp only [traverseNode, if_neg hd]
      exact traverse_nil_of_count0 cs h
theorem traverse_nil_of_count0 : ∀ f, sentinelFolderCountF f = 0 →
    traverse_bookmarks f = []
  | .nil, _ => rfl
  | .cons n ns, h => by
    simp only [sentinelFolderCountF] at h
    have h1 : sentinelFolderCountN n = 0 := by omega
    have h2 : sentinelFolderCountF ns = 0 := by omega
    simp only [traverse_bookmarks, traverseNode_nil_of_count0 n h1,
      traverse_nil_of_count0 ns h2]
    rfl
end

mutual
theorem firstN_none_of_count0 : ∀ n, sentinelFolderCountN n = 0 →
    firstSentinelChildrenN n = none
  | .leaf _, _ => rfl
  | .folder d cs, h => by
    by_cases hd : d.title = some sentinelTitle
    · exfalso
      simp only [sentinelFolderCountN, if_pos hd] at h
      omega
    · simp only [sentinelFolderCountN, if_neg hd, Nat.zero_add] at h
      simp only [firstSentinelChildrenN, if_neg hd]
      exact firstF_none_of_count0 cs h
theorem firstF_none_of_count0 : ∀ f, sentinelFolderCountF f = 0 →
    firstSentinelChildrenF f = none
  | .nil, _ => rfl
  | .cons n ns, h => by
    simp only [sentinelFolderCountF] at h
    have h1 : sentinelFolderCountN n = 0 := by omega
    have h2 : sentinelFolderCountF ns = 0 := by omega
    simp only [firstSentinelChildrenF, firstN_none_of_count0 n h1]
    exact firstF_none_of_count0 ns h2
end

mutual
theorem traverseNode_of_count1 : ∀ n, sentinelFolderCountN n = 1 →
    traverseNode n =
      entriesOfForest ((firstSentinelChildrenN n).getD BForest.nil)
  | .leaf _, h => by simp [sentinelFolderCountN] at h
  | .folder d cs, h => by
    by_cases hd : d.title = some sentinelTitle
    · simp only [traverseNode, if_pos hd, firstSentinelChildrenN,
        Option.getD_some]
    · simp only [sentinelFolderCountN, if_neg hd, Nat.zero_add] at h
      simp only [traverseNode, if_neg hd, firstSentinelChildrenN, if_neg hd]
      exact traverseF_of_count1 cs h
theorem traverseF_of_count1 : ∀ f, sentinelFolderCountF f = 1 →
    traverse_bookmarks f =
      entriesOfForest ((firstSentinelChildrenF f).getD BForest.nil)
  | .nil, h => by simp [sentinelFolderCountF] at h
  | .cons n ns, h => by
    simp only [sentinelFolderCountF] at h
    rcases Nat.eq_zero_or_pos (sentinelFolderCountN n) with h0 | hpos
    · have h2 : sentinelFolderCountF ns = 1 := by omega
      simp only [traverse_bookmarks, traverseNode_nil_of_count0 n h0,
        firstSentinelChildrenF, firstN_none_of_count0 n h0,
        List.nil_append]
      exact traverseF_of_count1 ns h2
    · have h1 : sentinelFolderCountN n = 1 := by omega
      have h2 : sentinelFolderCountF ns = 0 := by omega
      simp only [traverse_bookmarks, traverse_nil_of_count0 ns h2,
        List.append_nil, traverseNode_of_count1 n h1,
        firstSentinelChildrenF]
      rcases hfn : firstSentinelChildrenN n with _ | x
      · simp only [Option.getD_none, firstF_none_of_count0 ns h2]
      · simp only [Option.getD_some]
end

theorem entriesOfForest_length : ∀ fs,
    (entriesOfForest fs).length = forestLength fs
  | .nil => rfl
  | .cons n ns => by
    simp only [entriesOfForest, forestLength, List.length_cons,
      entriesOfForest_length ns]
    omega

/-- C6: extractor output. With exactly one sentinel-titled folder anywhere
in the tree, `extract_reading_list` returns exactly its direct children as
entries, in source order (and the entry list of a forest has one entry per
child); with no sentinel folder the output is empty; and a missing file
yields the not-found error. -/
theorem c6_extractor_output :
    (∀ rd cs, sentinelFolderCountF cs = 1 →
      extract_reading_list (some (BNode.folder rd cs)) =
        Except.ok
          (entriesOfForest ((firstSentinelChildrenF cs).getD BForest.nil)))
    ∧ (∀ fs, (entriesOfForest fs).length = forestLength fs)
    ∧ (∀ rd cs, sentinelFolderCountF cs = 0 →
        extract_reading_list (some (BNode.folder rd cs)) = Except.ok [])
    ∧ extract_reading_list none = Except.error ExtractError.notFound := by
  refine ⟨?_, entriesOfForest_length, ?_, rfl⟩
  · intro rd cs h
    simp only [extract_reading_list, traverseF_of_count1 cs h]
  · intro rd cs h
    simp only [extract_reading_list, traverse_nil_of_count0 cs h]

/-- C6 witness: a one-folder one-item tree and an empty tree. -/
theorem c6_extractor_output_witness :
    (sentinelFolderCountF nestedSentinelForest = 1 ∧
      extract_reading_list
          (some (BNode.folder innerItemData nestedSentinelForest)) =
        Except.ok
          (entriesOfForest
            ((firstSentinelChildrenF nestedSentinelForest).getD
              BForest.nil))) ∧
    (sentinelFolderCountF BForest.nil = 0 ∧
      extract_reading_list (some (BNode.folder innerItemData BForest.nil)) =
        Except.ok []) :=
  ⟨⟨by decide,
    c6_extractor_output.1 innerItemData nestedSentinelForest (by decide)⟩,
   ⟨by decide,
    c6_extractor_output.2.2.1 innerItemData BForest.nil (by decide)⟩⟩

theorem noExcluded_happend : ∀ (f g : HForest),
    noExcludedForest (happend f g) =
      (noExcludedForest f && noExcludedForest g)
  | .hnil, g => by simp [happend, noExcludedForest]
  | .hcons n ns, g => by
    simp [happend, noExcludedForest, noExcluded_happend ns g, Bool.and_assoc]

mutual
theorem noExcluded_decomposeNode : ∀ n,
    noExcludedForest (decomposeNode n) = true
  | .htext s => rfl
  | .helem t cs => by
    by_cases ht : t ∈ excludedTags
    · simp only [decomposeNode, if_pos ht]
      rfl
    · simp only [decomposeNode, if_neg ht, noExcludedForest, noExcludedNode,
        noExcluded_decomposeForest cs]
      simp [ht]
theorem noExcluded_decomposeForest : ∀ f,
    noExcludedForest (decomposeForest f) = true
  | .hnil => rfl
  | .hcons n ns => by
    simp only [decomposeForest, noExcluded_happend,
      noExcluded_decomposeNode n, noExcluded_decomposeForest ns]
    rfl
end

theorem strings_happend : ∀ (f g : HForest),
    stringsForest (happend f g) = stringsForest f ++ stringsForest g
  | .hnil, g => by simp [happend, stringsForest]
  | .hcons n ns, g => by
    simp [happend, stringsForest, strings_happend ns g]

mutual
theorem strings_decomposeNode : ∀ n,
    stringsForest (decomposeNode n) = keptStringsNode n
  | .htext s => by simp [decomposeNode, stringsForest, stringsNode,
      keptStringsNode]
  | .helem t cs => by
    by_cases ht : t ∈ excludedTags
    · simp only [decomposeNode, if_pos ht, keptStringsNode, if_pos ht]
      rfl
    · simp only [decomposeNode, if_neg ht, keptStringsNode, if_neg ht,
        stringsForest, stringsNode, strings_decomposeForest cs]
      simp
theorem strings_decomposeForest : ∀ f,
    stringsForest (decomposeForest f) = keptStringsForest f
  | .hnil => rfl
  | .hcons n ns => by
    simp only [decomposeForest, strings_happend, strings_decomposeNode n,
      strings_decomposeForest ns, keptStringsForest]
end

theorem head?_dropWhile_not (p : Char → Bool) :
    ∀ (l : List Char) (c : Char),
      (l.dropWhile p).head? = some c → p c = false := by
  intro l
  induction l with
  | nil =>
    intro c h
    simp at h
  | cons a rest ih =>
    intro c h
    rw [List.dropWhile_cons] at h
    cases hpa : p a
    · rw [if_neg (by simp [hpa])] at h
      rw [List.head?_cons] at h
      obtain rfl := Option.some.inj h
      exact hpa
    · rw [if_pos hpa] at h
      exact ih c h

theorem pstrip_prefix_dropWhile (s : List Char) : pstrip s <+: s.dropWhile Char.isWhitespace := by
  unfold pstrip
  have hsuf : (s.dropWhile Char.isWhitespace).reverse.dropWhile Char.isWhitespace <:+
      (s.dropWhile Char.isWhitespace).reverse := List.dropWhile_suffix _
  have := List.reverse_prefix.mpr hsuf
  rwa [List.reverse_reverse] at this

theorem pstrip_sublist (s : List Char) : (pstrip s).Sublist s :=
  ((pstrip_prefix_dropWhile s).sublist).trans (List.dropWhile_sublist _)

theorem pstrip_head_not_ws (s : List Char) (c : Char)
    (h : (pstrip s).head? = some c) : c.isWhitespace = false := by
  obtain ⟨t, ht⟩ := pstrip_prefix_dropWhile s
  apply head?_dropWhile_not Char.isWhitespace s c
  rw [← ht, List.head?_append, h]
  rfl

theorem pstrip_last_not_ws (s : List Char) (c : Char)
    (h : (pstrip s).getLast? = some c) : c.isWhitespace = false := by
  unfold pstrip at h
  rw [List.getLast?_reverse] at h
  exact head?_dropWhile_not Char.isWhitespace _ c h

theorem splitNl_ne_nil : ∀ s, splitNl s ≠ [] := by
  intro s
  induction s using splitNl.induct with
  | case1 => simp [splitNl]
  | case2 rest ih => simp [splitNl]
  | case3 c rest hc hnil ih => exact absurd hnil ih
  | case4 c rest hc l ls hl ih =>
    simp only [splitNl, hl]
    simp

theorem mem_splitNl_no_nl : ∀ s l, l ∈ splitNl s → '\n' ∉ l := by
  intro s
  induction s using splitNl.induct with
  | case1 =>
    intro l hl
    simp [splitNl] at hl
    simp [hl]
  | case2 rest ih =>
    intro l hl
    simp only [splitNl, List.mem_cons] at hl
    rcases hl with h | h
    · simp [h]
    · exact ih l h
  | case3 c rest hc hnil ih => exact absurd hnil (splitNl_ne_nil rest)
  | case4 c rest hc l0 ls hl ih =>
    intro l hl2
    simp only [splitNl, hl] at hl2
    rcases List.mem_cons.mp hl2 with h | h
    · subst h
      intro hmem
      rcases List.mem_cons.mp hmem with h | h
      · exact hc h.symm
      · exact ih l0 (hl ▸ List.mem_cons_self l0 ls) h
    · exact ih l (hl ▸ List.mem_cons_of_mem l0 h)

theorem splitNl_of_no_nl : ∀ s, '\n' ∉ s → splitNl s = [s] := by
  intro s
  induction s using splitNl.induct with
  | case1 => intro h; rfl
  | case2 rest ih => intro h; simp at h
  | case3 c rest hc hnil ih => exact absurd hnil (splitNl_ne_nil rest)
  | case4 c rest hc l0 ls hl ih =>
    intro h
    have hr : '\n' ∉ rest := fun hm => h (List.mem_cons_of_mem c hm)
    have heq := ih hr
    rw [heq] at hl
    cases hl
    simp only [splitNl, heq]

theorem splitNl_append_nl : ∀ (a b : List Char), '\n' ∉ a →
    splitNl (a ++ '\n' :: b) = a :: splitNl b := by
  intro a
  induction a with
  | nil =>
    intro b h
    simp [splitNl]
  | cons c a2 ih =>
    intro b h
    have hc : c ≠ '\n' := fun hh => h (hh ▸ List.mem_cons_self c a2)
    have ha : '\n' ∉ a2 := fun hm => h (List.mem_cons_of_mem c hm)
    have heq := ih b ha
    show splitNl (c :: (a2 ++ '\n' :: b)) = (c :: a2) :: splitNl b
    simp [splitNl, heq]

theorem splitNl_intercalate : ∀ (chs : List (List Char)),
    (∀ ch ∈ chs, '\n' ∉ ch) → chs ≠ [] →
    splitNl (List.intercalate ['\n'] chs) = chs := by
  intro chs
  induction chs with
  | nil => exact fun _ h => absurd rfl h
  | cons ch rest ih =>
    intro hall _
    rcases rest with _ | ⟨ch2, rest2⟩
    · have hone : List.intercalate ['\n'] [ch] = ch := by
        simp [List.intercalate]
      rw [hone, splitNl_of_no_nl ch (hall ch (List.mem_cons_self ch []))]
    · have hstep : List.intercalate ['\n'] (ch :: ch2 :: rest2) =
          ch ++ '\n' :: List.intercalate ['\n'] (ch2 :: rest2) := by
        simp [List.intercalate, List.intersperse]
      rw [hstep,
        splitNl_append_nl ch _ (hall ch (List.mem_cons_self ch (ch2 :: rest2))),
        ih (fun x hx => hall x (List.mem_cons_of_mem ch hx)) (by simp)]

theorem pySplitlines_intercalate (chs : List (List Char))
    (h : ∀ ch ∈ chs, ch ≠ [] ∧ '\n' ∉ ch) :
    pySplitlines (List.intercalate ['\n'] chs) = chs := by
  rcases chs with _ | ⟨ch, rest⟩
  · decide
  · have hsp := splitNl_intercalate (ch :: rest)
      (fun x hx => (h x hx).2) (by simp)
    simp only [pySplitlines, hsp]
    rw [if_neg]
    intro hgl
    exact (h [] (List.mem_of_mem_getLast? hgl)).1 rfl

theorem mem_pySplitlines (s : List Char) (l : List Char)
    (h : l ∈ pySplitlines s) : l ∈ splitNl s := by
  simp only [pySplitlines] at h
  split at h
  · exact (List.dropLast_sublist _).subset h
  · exact h

theorem splitDouble_ne_nil : ∀ s, splitDouble s ≠ [] := by
  intro s
  induction s using splitDouble.induct with
  | case1 => simp [splitDouble]
  | case2 rest ih => simp [splitDouble]
  | case3 c rest hc hnil ih => exact absurd hnil ih
  | case4 c rest hc l ls hl ih =>
    simp only [splitDouble, hl]
    simp

theorem mem_splitDouble_sublist : ∀ s p, p ∈ splitDouble s → p.Sublist s := by
  intro s
  induction s using splitDouble.induct with
  | case1 =>
    intro p hp
    simp [splitDouble] at hp
    simp [hp]
  | case2 rest ih =>
    intro p hp
    simp only [splitDouble, List.mem_cons] at hp
    rcases hp with rfl | hp
    · exact List.nil_sublist _
    · exact ((ih p hp).trans (List.sublist_cons_self ' ' rest)).trans
        (List.sublist_cons_self ' ' (' ' :: rest))
  | case3 c rest hc hnil ih => exact absurd hnil (splitDouble_ne_nil rest)
  | case4 c rest hc l0 ls hl ih =>
    intro p hp
    simp only [splitDouble, hl] at hp
    rcases List.mem_cons.mp hp with rfl | hp2
    · exact List.Sublist.cons₂ c (ih l0 (hl ▸ List.mem_cons_self l0 ls))
    · exact (ih p (hl ▸ List.mem_cons_of_mem l0 hp2)).trans
        (List.sublist_cons_self c rest)

theorem fetchChunks_mem (doc : HForest) (ch : List Char)
    (h : ch ∈ fetchChunks doc) :
    ch ≠ [] ∧ '\n' ∉ ch ∧ ∃ phrase, ch = pstrip phrase := by
  unfold fetchChunks at h
  rw [List.mem_filter] at h
  obtain ⟨hmem, hne⟩ := h
  rw [List.mem_flatMap] at hmem
  obtain ⟨line, hline, hch⟩ := hmem
  rw [List.mem_map] at hch
  obtain ⟨phrase, hph, rfl⟩ := hch
  rw [List.mem_map] at hline
  obtain ⟨rawline, hraw, rfl⟩ := hline
  have hrnl : '\n' ∉ rawline :=
    mem_splitNl_no_nl _ rawline (mem_pySplitlines _ rawline hraw)
  have h1 : '\n' ∉ pstrip rawline :=
    fun hm => hrnl ((pstrip_sublist rawline).subset hm)
  have h2 : '\n' ∉ phrase :=
    fun hm => h1 ((mem_splitDouble_sublist _ phrase hph).subset hm)
  refine ⟨?_, fun hm => h2 ((pstrip_sublist phrase).subset hm),
    ⟨phrase, rfl⟩⟩
  intro hc
  rw [hc] at hne
  simp at hne

/-- C8: fetch cleanup. After decomposition no script, style, nav, header or
footer element survives; the strings feeding text extraction are exactly
the strings outside excluded subtrees; every line of the output is
non-empty with no leading or trailing whitespace; and on a concrete
document with script, style and nav blocks and body text containing runs
of spaces and a blank text node, the output is the cleaned text and
contains none of the excluded blocks' text. -/
theorem c8_fetch_cleanup :
    (∀ f, noExcludedForest (decomposeForest f) = true)
    ∧ (∀ f, stringsForest (decomposeForest f) = keptStringsForest f)
    ∧ (∀ doc line, line ∈ pySplitlines (fetch_webpage_content doc) →
        line ≠ [] ∧ (∀ c, line.head? = some c → c.isWhitespace = false) ∧
          ∀ c, line.getLast? = some c → c.isWhitespace = false)
    ∧ (fetch_webpage_content sampleDoc =
        "Hello\nworld\nSecond\nline".toList
      ∧ ¬ ("SCRIPTDATA".toList <:+: fetch_webpage_content sampleDoc)
      ∧ ¬ ("STYLEDATA".toList <:+: fetch_webpage_content sampleDoc)
      ∧ ¬ ("NAVDATA".toList <:+: fetch_webpage_content sampleDoc)) := by
  refine ⟨noExcluded_decomposeForest, strings_decomposeForest, ?_,
    by decide, by decide, by decide, by decide⟩
  intro doc line hline
  have hfc : fetch_webpage_content doc =
      List.intercalate ['\n'] (fetchChunks doc) := rfl
  rw [hfc] at hline
  have hprops : ∀ ch ∈ fetchChunks doc, ch ≠ [] ∧ '\n' ∉ ch := fun ch hch =>
    ⟨(fetchChunks_mem doc ch hch).1, (fetchChunks_mem doc ch hch).2.1⟩
  rw [pySplitlines_intercalate (fetchChunks doc) hprops] at hline
  obtain ⟨hne, hnl, phrase, hph⟩ := fetchChunks_mem doc line hline
  subst hph
  exact ⟨hne, fun c hc => pstrip_head_not_ws phrase c hc,
    fun c hc => pstrip_last_not_ws phrase c hc⟩

/-- C8 witness: the line property applied to the first output line of the
sample document. -/
theorem c8_fetch_cleanup_witness :
    "Hello".toList ∈ pySplitlines (fetch_webpage_content sampleDoc) ∧
    "Hello".toList ≠ [] :=
  ⟨by decide, (c8_fetch_cleanup.2.2.1 sampleDoc "Hello".toList (by decide)).1⟩

end ReadingListProcessor
